import Mathlib

/-!
Verification of the go3270 library core: telnet byte framer, 3270 buffer
addressing codec, screen-writer fieldmap construction, inbound response
reader, EBCDIC codepage translation, and the device-information probe.

Shallow embedding conventions:
* Go bytes are `Nat` values < 256; byte streams are `List Nat`.
* Go `string` values that only serve as identifiers stay `String`; text that
  flows through the codec is represented as the list of Unicode code points
  the Go UTF-8 decoder would yield (a malformed byte sequence yields the
  code point 0xFFFD, exactly as Go's `utf8.DecodeRuneInString` reports
  `RuneError`).
* Go maps are association lists with replace-on-insert semantics.
* Fallible operations return `Option`/`Except`.
-/

namespace Go3270

/-! ## Telnet byte framer (`telnetRead`, unnamed telnet source file)

`telnetRead` reads single bytes from the connection and runs a three-state
machine (`normal`, `command`, `subneg`), returning the first data byte (or
an EOR signal when `passEOR` is set). Each call starts in the `normal`
state; the connection is modelled as the list of bytes not yet consumed. -/

inductive TState where
  | normal
  | command
  | subneg
deriving DecidableEq, Repr

/-- Result of one `telnetRead` call: a data byte plus the unconsumed rest of
the stream, an end-of-record signal plus the rest, or end of input (the Go
code would return the read error). -/
inductive TnResult where
  | data (b : Nat) (rest : List Nat)
  | eorSig (rest : List Nat)
  | closed
deriving DecidableEq, Repr

/-- The state-machine loop inside `telnetRead`. Constants from the source:
IAC = 255, SB = 250, SE = 240, EOR command = 239. -/
def telnetReadAux (passEOR : Bool) : TState → List Nat → TnResult
  | _, [] => .closed
  | .normal, b :: rest =>
      if b = 255 then telnetReadAux passEOR .command rest
      else .data b rest
  | .command, b :: rest =>
      if b = 255 then .data 255 rest
      else if b = 250 then telnetReadAux passEOR .subneg rest
      else if passEOR ∧ b = 239 then .eorSig rest
      else telnetReadAux passEOR .normal rest
  | .subneg, b :: rest =>
      if b = 240 then telnetReadAux passEOR .normal rest
      else telnetReadAux passEOR .subneg rest

/-- One call to `telnetRead`: the state always starts at `normal`. -/
def telnetRead (passEOR : Bool) (input : List Nat) : TnResult :=
  telnetReadAux passEOR .normal input

theorem telnetReadAux_length (passEOR : Bool) (s : TState) (l : List Nat)
    (b : Nat) (r : List Nat) :
    (telnetReadAux passEOR s l = .data b r → r.length < l.length) ∧
    (telnetReadAux passEOR s l = .eorSig r → r.length < l.length) := by
  induction l generalizing s with
  | nil => constructor <;> (intro hh; simp [telnetReadAux] at hh)
  | cons x xs ih =>
    constructor <;> intro hh <;> cases s <;>
      simp only [telnetReadAux] at hh <;>
      split_ifs at hh <;>
      first
        | (cases hh; simp)
        | (exact Nat.lt_trans ((ih _).1 hh) (by simp))
        | (exact Nat.lt_trans ((ih _).2 hh) (by simp))

theorem telnetRead_length_data {p : Bool} {input : List Nat} {b : Nat}
    {rest : List Nat} (h : telnetRead p input = .data b rest) :
    rest.length < input.length :=
  (telnetReadAux_length p .normal input b rest).1 h

theorem telnetRead_length_eor {p : Bool} {input : List Nat}
    {rest : List Nat} (h : telnetRead p input = .eorSig rest) :
    rest.length < input.length :=
  (telnetReadAux_length p .normal input 0 rest).2 h

/-- Collect the data bytes produced by repeated `telnetRead` calls until the
input is exhausted. EOR signals carry no data byte. -/
def telnetReadAll (passEOR : Bool) (input : List Nat) : List Nat :=
  match h : telnetRead passEOR input with
  | .data b rest => b :: telnetReadAll passEOR rest
  | .eorSig rest => telnetReadAll passEOR rest
  | .closed => []
termination_by input.length
decreasing_by
  · exact telnetRead_length_data h
  · exact telnetRead_length_eor h

/-- Specification-side filter, written from the spec's words: the input with
all IAC command sequences and SB…SE subnegotiation runs removed, and every
IAC IAC pair collapsed to a single literal 0xFF byte. A trailing incomplete
command or subnegotiation is an (unfinished) command sequence and is
removed. -/
def subnegSkipSpec : List Nat → List Nat
  | [] => []
  | b :: rest => if b = 240 then rest else subnegSkipSpec rest

theorem subnegSkipSpec_length_le (l : List Nat) :
    (subnegSkipSpec l).length ≤ l.length := by
  induction l with
  | nil => simp [subnegSkipSpec]
  | cons x xs ih =>
    simp only [subnegSkipSpec]
    split
    · simp
    · exact Nat.le_trans ih (by simp)

def stripTelnetSpec : List Nat → List Nat
  | [] => []
  | [b] => if b = 255 then [] else [b]
  | b :: c :: rest =>
      if b = 255 then
        if c = 255 then 255 :: stripTelnetSpec rest
        else if c = 250 then stripTelnetSpec (subnegSkipSpec rest)
        else stripTelnetSpec rest
      else b :: stripTelnetSpec (c :: rest)
termination_by l => l.length
decreasing_by
  all_goals simp_arith
  exact Nat.le_trans (subnegSkipSpec_length_le rest) (Nat.le_succ _)

/-! ## Buffer addressing codec (`getpos` in screen.go, `decodeBufAddr` in
response.go) -/

/-- The 3270 control character I/O codes table (`codes` in the source). -/
def codes : List Nat :=
  [0x40, 0xc1, 0xc2, 0xc3, 0xc4, 0xc5, 0xc6, 0xc7, 0xc8,
   0xc9, 0x4a, 0x4b, 0x4c, 0x4d, 0x4e, 0x4f, 0x50, 0xd1, 0xd2, 0xd3, 0xd4,
   0xd5, 0xd6, 0xd7, 0xd8, 0xd9, 0x5a, 0x5b, 0x5c, 0x5d, 0x5e, 0x5f, 0x60,
   0x61, 0xe2, 0xe3, 0xe4, 0xe5, 0xe6, 0xe7, 0xe8, 0xe9, 0x6a, 0x6b, 0x6c,
   0x6d, 0x6e, 0x6f, 0xf0, 0xf1, 0xf2, 0xf3, 0xf4, 0xf5, 0xf6, 0xf7, 0xf8,
   0xf9, 0x7a, 0x7b, 0x7c, 0x7d, 0x7e, 0x7f]

/-- `getpos(row, col, cols)`: encode a buffer position as 2 bytes (12-bit via
the `codes` table, or 14-bit as a straight 6+8 split), or 3 bytes when the
14-bit low byte is 0xFF and must be telnet-escaped inline. -/
def getpos (row col cols : Nat) : List Nat :=
  let address := row * cols + col
  if address < 4096 then
    let hi := (address &&& 0xfc0) >>> 6
    let lo := address &&& 0x3f
    [codes.getD hi 0, codes.getD lo 0]
  else
    let hi := (address &&& 0x3f00) >>> 8
    let lo := address &&& 0xff
    if lo = 0xff then [hi, 0xff, lo]
    else [hi, lo]

/-- `decodeBufAddr(raw)`: 14-bit form when the top two bits of the first
byte are clear, 12-bit form otherwise. -/
def decodeBufAddr (b0 b1 : Nat) : Nat :=
  if b0 &&& 0xc0 = 0 then (b0 <<< 8) + b1
  else ((b0 &&& 0x3f) <<< 6) + (b1 &&& 0x3f)

/-! ## Screen writer fieldmap (`showScreenInternal` in screen.go)

Only the fieldmap construction of `showScreenInternal` is embedded: the
3270 datastream bytes it also accumulates are written to the connection and
never influence the fieldmap, which is the returned value the claims are
about. The loop over the screen's fields, the bounds check that silently
drops invalid fields, and the `address+1 → name` insertion for writable
fields are translated exactly. -/

/-- `Field` (screen.go): one cell range on the virtual screen. Colors and
highlights are their 3270 attribute byte values. -/
structure GoField where
  row : Int
  col : Int
  content : String := ""
  write : Bool := false
  autoskip : Bool := false
  intense : Bool := false
  hidden : Bool := false
  numericOnly : Bool := false
  color : Nat := 0
  highlighting : Nat := 0
  name : String := ""
  keepSpaces : Bool := false
deriving DecidableEq, Repr

/-- Go map assignment `m[k] = v`: replace the binding if the key is present,
otherwise add it. -/
def mapInsert (k : Int) (v : String) : List (Int × String) → List (Int × String)
  | [] => [(k, v)]
  | (k2, v2) :: rest =>
      if k2 = k then (k, v) :: rest else (k2, v2) :: mapInsert k v rest

/-- Go map lookup `m[k]`. -/
def mapLookup (k : Int) : List (Int × String) → Option String
  | [] => none
  | (k2, v2) :: rest => if k2 = k then some v2 else mapLookup k rest

/-- Effective dimensions: 24×80 unless an alternate-screen device handle is
given (`rows, cols := 24, 80; if dev != nil { rows, cols = dev.altDimensions() }`). -/
def effectiveDims : Option (Nat × Nat) → Nat × Nat
  | none => (24, 80)
  | some d => d

/-- One iteration of the field loop of `showScreenInternal`, restricted to
its effect on the fieldmap: fields out of bounds are skipped; writable
fields insert `row*cols + col + 1 ↦ name`. -/
def fmStep (rows cols : Int) (fm : List (Int × String)) (fld : GoField) :
    List (Int × String) :=
  if fld.row < 0 ∨ fld.row > rows - 1 ∨ fld.col < 0 ∨ fld.col > cols - 1 then
    fm
  else if fld.write then
    mapInsert (fld.row * cols + fld.col + 1) fld.name fm
  else fm

/-- The fieldmap returned by `showScreenInternal`. -/
def showScreenFieldmap (screen : List GoField) (dev : Option (Nat × Nat)) :
    List (Int × String) :=
  screen.foldl (fmStep ((effectiveDims dev).1 : Int) ((effectiveDims dev).2 : Int)) []

/-! ## EBCDIC codepage translation (internal/codepage/codepage.go)

A codepage is backed by a 256-entry EBCDIC→Unicode table, a 256-entry
Unicode→EBCDIC table for low code points, a sparse map for high code
points, the shared CP310 graphic-escape tables, a substitute byte and the
graphic-escape byte. The 256-entry array fields of the Go struct are
represented as functions on byte values; `Encode`'s
`int(r) < len(cp.u2e)` test is the `r < 256` test. Characters are Unicode
code points (`Nat`); Go's UTF-8 decoder reports malformed input as the
code point 0xFFFD (`utf8.RuneError`). -/

/-- Association-list lookup for the `map[rune]byte` tables. -/
def lookupNat (k : Nat) : List (Nat × Nat) → Option Nat
  | [] => none
  | (k2, v2) :: rest => if k2 = k then some v2 else lookupNat k rest

/-- `unicodeToCP310` (codepage.go): Unicode code point → graphic-escape
CP310 byte, shared across all codepage instances. -/
def unicodeToCP310 : List (Nat × Nat) :=
  [(0x25CA, 0x70), (0x22C4, 0x70), (0x25C6, 0x70), (0x2227, 0x71),
   (0x22C0, 0x71), (0xA8, 0x72), (0x233B, 0x73), (0x2378, 0x74),
   (0x2377, 0x75), (0x22A2, 0x76), (0x22A3, 0x77), (0x2228, 0x78),
   (0x223C, 0x80), (0x2551, 0x81), (0x2550, 0x82), (0x23B8, 0x83),
   (0x23B9, 0x84), (0x2502, 0x85), (0x23A5, 0x85), (0x2191, 0x8A),
   (0x2193, 0x8B), (0x2264, 0x8C), (0x2308, 0x8D), (0x230A, 0x8E),
   (0x2192, 0x8F), (0x2395, 0x90), (0x258C, 0x91), (0x2590, 0x92),
   (0x2580, 0x93), (0x2584, 0x94), (0x2588, 0x95), (0x2283, 0x9A),
   (0x2282, 0x9B), (0x2311, 0x9C), (0xA4, 0x9C), (0x25CB, 0x9D),
   (0xB1, 0x9E), (0x2190, 0x9F), (0xAF, 0xA0), (0x203E, 0xA0),
   (0xB0, 0xA1), (0x2500, 0xA2), (0x2219, 0xA3), (0x2022, 0xA3),
   (0x2099, 0xA4), (0x2229, 0xAA), (0x22C2, 0xAA), (0x222A, 0xAB),
   (0x22C3, 0xAB), (0x22A5, 0xAC), (0x2265, 0xAE), (0x2218, 0xAF),
   (0x237A, 0xB0), (0x3B1, 0xB0), (0x220A, 0xB1), (0x2208, 0xB1),
   (0x3B5, 0xB1), (0x2373, 0xB2), (0x3B9, 0xB2), (0x2374, 0xB3),
   (0x3C1, 0xB3), (0x2375, 0xB4), (0x3C9, 0xB4), (0xD7, 0xB6),
   (0x2216, 0xB7), (0xF7, 0xB8), (0x2207, 0xBA), (0x2206, 0xBB),
   (0x22A4, 0xBC), (0x2260, 0xBE), (0x2223, 0xBF), (0x207D, 0xC1),
   (0x207A, 0xC2), (0x25A0, 0xC3), (0x220E, 0xC3), (0x2514, 0xC4),
   (0x250C, 0xC5), (0x251C, 0xC6), (0x2534, 0xC7), (0x2372, 0xCA),
   (0x2371, 0xCB), (0x2337, 0xCC), (0x233D, 0xCD), (0x2342, 0xCE),
   (0x2349, 0xCF), (0x207E, 0xD1), (0x207B, 0xD2), (0x253C, 0xD3),
   (0x2518, 0xD4), (0x2510, 0xD5), (0x2524, 0xD6), (0x252C, 0xD7),
   (0xB6, 0xD8), (0x2336, 0xDA), (0x1C3, 0xDB), (0x2352, 0xDC),
   (0x234B, 0xDD), (0x235E, 0xDE), (0x235D, 0xDF), (0x2261, 0xE0),
   (0x2081, 0xE1), (0x2082, 0xE2), (0x2083, 0xE3), (0x2364, 0xE4),
   (0x2365, 0xE5), (0x236A, 0xE6), (0x20AC, 0xE7), (0x233F, 0xEA),
   (0x2340, 0xEB), (0x2235, 0xEC), (0x2296, 0xED), (0x2339, 0xEE),
   (0x2355, 0xEF), (0x2070, 0xF0), (0xB9, 0xF1), (0xB2, 0xF2),
   (0xB3, 0xF3), (0x2074, 0xF4), (0x2075, 0xF5), (0x2076, 0xF6),
   (0x2077, 0xF7), (0x2078, 0xF8), (0x2079, 0xF9), (0x236B, 0xFB),
   (0x2359, 0xFC), (0x235F, 0xFD), (0x234E, 0xFE)]

/-- `cp310ToUnicode` (codepage.go): CP310 byte → Unicode code point, with
0xFFFD (the Unicode replacement character) in unassigned positions. -/
def cp310ToUnicode : List Nat :=
  [0xFFFD, 0xFFFD, 0xFFFD, 0xFFFD, 0xFFFD, 0xFFFD, 0xFFFD, 0xFFFD,
   0xFFFD, 0xFFFD, 0xFFFD, 0xFFFD, 0xFFFD, 0xFFFD, 0xFFFD, 0xFFFD,
   0xFFFD, 0xFFFD, 0xFFFD, 0xFFFD, 0xFFFD, 0xFFFD, 0xFFFD, 0xFFFD,
   0xFFFD, 0xFFFD, 0xFFFD, 0xFFFD, 0xFFFD, 0xFFFD, 0xFFFD, 0xFFFD,
   0xFFFD, 0xFFFD, 0xFFFD, 0xFFFD, 0xFFFD, 0xFFFD, 0xFFFD, 0xFFFD,
   0xFFFD, 0xFFFD, 0xFFFD, 0xFFFD, 0xFFFD, 0xFFFD, 0xFFFD, 0xFFFD,
   0xFFFD, 0xFFFD, 0xFFFD, 0xFFFD, 0xFFFD, 0xFFFD, 0xFFFD, 0xFFFD,
   0xFFFD, 0xFFFD, 0xFFFD, 0xFFFD, 0xFFFD, 0xFFFD, 0xFFFD, 0xFFFD,
   0xFFFD, 0xFFFD, 0xFFFD, 0xFFFD, 0xFFFD, 0xFFFD, 0xFFFD, 0xFFFD,
   0xFFFD, 0xFFFD, 0xFFFD, 0xFFFD, 0xFFFD, 0xFFFD, 0xFFFD, 0xFFFD,
   0xFFFD, 0xFFFD, 0xFFFD, 0xFFFD, 0xFFFD, 0xFFFD, 0xFFFD, 0xFFFD,
   0xFFFD, 0xFFFD, 0xFFFD, 0xFFFD, 0xFFFD, 0xFFFD, 0xFFFD, 0xFFFD,
   0xFFFD, 0xFFFD, 0xFFFD, 0xFFFD, 0xFFFD, 0xFFFD, 0xFFFD, 0xFFFD,
   0xFFFD, 0xFFFD, 0xFFFD, 0xFFFD, 0xFFFD, 0xFFFD, 0xFFFD, 0xFFFD,
   0x25CA, 0x2227, 0xA8, 0x233B, 0x2378, 0x2377, 0x22A2, 0x22A3,
   0x2228, 0xFFFD, 0xFFFD, 0xFFFD, 0xFFFD, 0xFFFD, 0xFFFD, 0xFFFD,
   0x223C, 0x2551, 0x2550, 0x23B8, 0x23B9, 0x23A5, 0xFFFD, 0xFFFD,
   0xFFFD, 0xFFFD, 0x2191, 0x2193, 0x2264, 0x2308, 0x230A, 0x2192,
   0x2395, 0x258C, 0x2590, 0x2580, 0x2584, 0x2588, 0xFFFD, 0xFFFD,
   0xFFFD, 0xFFFD, 0x2283, 0x2282, 0x2311, 0x25CB, 0xB1, 0x2190,
   0x203E, 0xB0, 0x2500, 0x2022, 0x2099, 0xFFFD, 0xFFFD, 0xFFFD,
   0xFFFD, 0xFFFD, 0x2229, 0x22C3, 0x22A5, 0xFFFD, 0x2265, 0x2218,
   0x237A, 0x2208, 0x2373, 0x2374, 0x3C9, 0xFFFD, 0xD7, 0x2216,
   0xF7, 0xFFFD, 0x2207, 0x2206, 0x22A4, 0xFFFD, 0x2260, 0x2223,
   0xFFFD, 0x207D, 0x207A, 0x25A0, 0x2514, 0x250C, 0x251C, 0x2534,
   0xFFFD, 0xFFFD, 0x2372, 0x2371, 0x2337, 0x233D, 0x2342, 0x2349,
   0xFFFD, 0x207E, 0x207B, 0x253C, 0x2518, 0x2510, 0x2524, 0x252C,
   0xB6, 0xFFFD, 0x2336, 0x1C3, 0x2352, 0x234B, 0x235E, 0x235D,
   0x2261, 0x2081, 0x2082, 0x2083, 0x2364, 0x2365, 0x236A, 0x20AC,
   0xFFFD, 0xFFFD, 0x233F, 0x2340, 0x2235, 0x2296, 0x2339, 0x2355,
   0x2070, 0xB9, 0xB2, 0xB3, 0x2074, 0x2075, 0x2076, 0x2077,
   0x2078, 0x2079, 0xFFFD, 0x236B, 0x2359, 0x235F, 0x234E, 0xFFFD]

/-- The `codepage` struct of internal/codepage/codepage.go. -/
structure CP where
  e2u : Nat → Nat
  u2e : Nat → Nat
  highu2e : List (Nat × Nat)
  esub : Nat
  ge : Nat
  ge2u : Nat → Nat
  u2ge : List (Nat × Nat)
  id : String

/-- `Decode` with its graphic-escape flag made an explicit argument. -/
def cpDecodeAux (cp : CP) : List Nat → Bool → List Nat
  | [], _ => []
  | b :: rest, true =>
      (if cp.ge2u b ≠ 0xFFFD then cp.ge2u b else 0x1A) :: cpDecodeAux cp rest false
  | b :: rest, false =>
      if b = cp.ge then cpDecodeAux cp rest true
      else cp.e2u b :: cpDecodeAux cp rest false

/-- `Decode(b)`: EBCDIC bytes → Unicode code points, entering graphic-escape
mode on the `ge` byte. -/
def cpDecode (cp : CP) (b : List Nat) : List Nat :=
  cpDecodeAux cp b false

/-- `Encode(s)`: Unicode code points → EBCDIC bytes. The loop stops (`break`)
on `utf8.RuneError`; low code points use the 256-entry table, then the
high-codepoint map, then the CP310 graphic-escape map, then the substitute. -/
def cpEncode (cp : CP) : List Nat → List Nat
  | [] => []
  | r :: rest =>
      if r = 0xFFFD then []
      else if r < 256 then cp.u2e r :: cpEncode cp rest
      else
        match lookupNat r cp.highu2e with
        | some v => v :: cpEncode cp rest
        | none =>
            match lookupNat r cp.u2ge with
            | some v => cp.ge :: v :: cpEncode cp rest
            | none => cp.esub :: cpEncode cp rest

/-- Modelled from the spec: the generated CP1047 translation tables
(EBCDIC byte ↔ Unicode) live in mechanically generated data files that are
not part of the sources here; only the mappings the spec pins down are
modelled — the EBCDIC letters and digits (so that `decode({0xC1, 0xC2}) =
"AB"` as in the spec's response-parse scenario), space 0x40, and the
substitute byte 0x3F for everything unassigned. -/
def e2u1047 (b : Nat) : Nat :=
  if b = 0x40 then 0x20
  else if 0xC1 ≤ b ∧ b ≤ 0xC9 then 0x41 + (b - 0xC1)
  else if 0xD1 ≤ b ∧ b ≤ 0xD9 then 0x4A + (b - 0xD1)
  else if 0xE2 ≤ b ∧ b ≤ 0xE9 then 0x53 + (b - 0xE2)
  else if 0x81 ≤ b ∧ b ≤ 0x89 then 0x61 + (b - 0x81)
  else if 0x91 ≤ b ∧ b ≤ 0x99 then 0x6A + (b - 0x91)
  else if 0xA2 ≤ b ∧ b ≤ 0xA9 then 0x73 + (b - 0xA2)
  else if 0xF0 ≤ b ∧ b ≤ 0xF9 then 0x30 + (b - 0xF0)
  else 0x1A

/-- Modelled from the spec: Unicode → EBCDIC direction of the same CP1047
fragment; unassigned low code points carry the substitute byte 0x3F in the
table, as the spec's "not in the 256-entry table ⇒ substitute" requires. -/
def u2e1047 (r : Nat) : Nat :=
  if r = 0x20 then 0x40
  else if 0x41 ≤ r ∧ r ≤ 0x49 then 0xC1 + (r - 0x41)
  else if 0x4A ≤ r ∧ r ≤ 0x52 then 0xD1 + (r - 0x4A)
  else if 0x53 ≤ r ∧ r ≤ 0x5A then 0xE2 + (r - 0x53)
  else if 0x61 ≤ r ∧ r ≤ 0x69 then 0x81 + (r - 0x61)
  else if 0x6A ≤ r ∧ r ≤ 0x72 then 0x91 + (r - 0x6A)
  else if 0x73 ≤ r ∧ r ≤ 0x7A then 0xA2 + (r - 0x73)
  else if 0x30 ≤ r ∧ r ≤ 0x39 then 0xF0 + (r - 0x30)
  else 0x3F

/-- Graphic-escape decode lookup as a function on bytes. -/
def cp310ge2u (b : Nat) : Nat := cp310ToUnicode.getD b 0xFFFD

/-- Modelled from the spec: the CP1047 codepage instance. The graphic-escape
byte is 0x08 per the spec's order list and glossary; the substitute is 0x3F;
CP1047 maps no high code points of its own, so its high-codepoint map is
empty; the CP310 tables are the shared ones from codepage.go. -/
def cp1047 : CP :=
  { e2u := e2u1047
    u2e := u2e1047
    highu2e := []
    esub := 0x3F
    ge := 0x08
    ge2u := cp310ge2u
    u2ge := unicodeToCP310
    id := "1047" }

/-! ## Response reader (response.go)

`readResponse` finds an AID byte, returns early on Clear/PA keys, otherwise
decodes the 2-byte cursor address and parses `(SBA, address, data)` groups
until the telnet EOR. Field data is decoded through the active codepage
(the process-wide `currentCodepage`, passed here explicitly) and entered
into the values map under the fieldmap name of its buffer address. -/

/-- The AID byte test of `readAID` (response.go). -/
def aidSet (b : Nat) : Bool :=
  (b = 0x60) || (0x6b ≤ b && b ≤ 0x6e) || (0x7a ≤ b && b ≤ 0x7d) ||
  (0x4a ≤ b && b ≤ 0x4c) || (0xf1 ≤ b && b ≤ 0xf9) || (0xc1 ≤ b && b ≤ 0xc9)

/-- `readAID`: consume bytes through the framer until a valid AID byte. -/
def readAID (input : List Nat) : Option (Nat × List Nat) :=
  match h : telnetRead false input with
  | .data b rest => if aidSet b then some (b, rest) else readAID rest
  | .eorSig _ => none
  | .closed => none
termination_by input.length
decreasing_by
  exact telnetRead_length_data h

/-- One framed byte for `readPosition` (which ignores the `valid` flag). -/
def readPos1 (input : List Nat) : Option (Nat × List Nat) :=
  match telnetRead false input with
  | .data b rest => some (b, rest)
  | .eorSig rest => some (0, rest)
  | .closed => none

/-- `readPosition`: two framed raw bytes, decoded to (row, col, addr). -/
def readPosition (cols : Nat) (input : List Nat) :
    Option (Nat × Nat × Nat × List Nat) :=
  match readPos1 input with
  | none => none
  | some (b0, r1) =>
      match readPos1 r1 with
      | none => none
      | some (b1, r2) =>
          let addr := decodeBufAddr b0 b1
          let col := addr % cols
          let row := (addr - col) / cols
          some (row, col, addr, r2)

theorem readPos1_length {input r1 : List Nat} {b : Nat}
    (h : readPos1 input = some (b, r1)) : r1.length < input.length := by
  unfold readPos1 at h
  split at h
  · cases h; exact telnetRead_length_data (by assumption)
  · cases h; exact telnetRead_length_eor (by assumption)
  · cases h

theorem readPosition_length {cols : Nat} {input r2 : List Nat}
    {row col addr : Nat}
    (h : readPosition cols input = some (row, col, addr, r2)) :
    r2.length < input.length := by
  unfold readPosition at h
  split at h
  · cases h
  · split at h
    · cases h
    · simp only [Option.some.injEq, Prod.mk.injEq] at h
      obtain ⟨_, _, _, h4⟩ := h
      subst h4
      exact Nat.lt_trans (readPos1_length (by assumption))
        (readPos1_length (by assumption))

/-- Go map insertion for the values map (`values[name] = value`). -/
def valuesInsert (k : String) (v : List Nat) :
    List (String × List Nat) → List (String × List Nat)
  | [] => [(k, v)]
  | (k2, v2) :: rest =>
      if k2 = k then (k, v) :: rest else (k2, v2) :: valuesInsert k v rest

/-- `handleField`: look the address up in the fieldmap; discard silently if
absent, otherwise store the decoded value under the field's name. -/
def handleField (addr : Nat) (value : List Nat) (fm : List (Int × String))
    (values : List (String × List Nat)) : List (String × List Nat) :=
  match mapLookup (addr : Int) fm with
  | none => values
  | some name => valuesInsert name value values

/-- The loop of `readFields`, with its local state (`infield`, `fieldpos`,
`fieldval`, `values`) as explicit arguments. -/
def readFieldsLoop (cols : Nat) (cp : CP) (fm : List (Int × String))
    (input : List Nat) (infield : Bool) (fieldpos : Nat)
    (fieldval : List Nat) (values : List (String × List Nat)) :
    Option (List (String × List Nat)) :=
  match h : telnetRead true input with
  | .closed => none
  | .eorSig _ =>
      some (if infield then handleField fieldpos (cpDecode cp fieldval) fm values
            else values)
  | .data b rest =>
      if b = 0x11 then
        let values2 :=
          if infield then handleField fieldpos (cpDecode cp fieldval) fm values
          else values
        match h2 : readPosition cols rest with
        | none => none
        | some (_, _, addr, rest2) =>
            readFieldsLoop cols cp fm rest2 true addr [] values2
      else if infield then
        readFieldsLoop cols cp fm rest infield fieldpos (fieldval ++ [b]) values
      else
        readFieldsLoop cols cp fm rest infield fieldpos fieldval values
termination_by input.length
decreasing_by
  · exact Nat.lt_trans (readPosition_length h2) (telnetRead_length_data h)
  · exact telnetRead_length_data h
  · exact telnetRead_length_data h

/-- `readFields`: run the loop from its initial state. -/
def readFields (cols : Nat) (cp : CP) (fm : List (Int × String))
    (input : List Nat) : Option (List (String × List Nat)) :=
  readFieldsLoop cols cp fm input false 0 [] []

/-- `Response` (response.go). Field values are lists of Unicode code
points. -/
structure GoResponse where
  aid : Nat
  row : Nat := 0
  col : Nat := 0
  values : List (String × List Nat) := []
deriving DecidableEq, Repr

/-- `readResponse`: AID search, early return on Clear/PA1/PA2/PA3, cursor
position at the device's column count (80 when no device is given), then
the field loop. -/
def readResponse (dev : Option (Nat × Nat)) (cp : CP)
    (fm : List (Int × String)) (input : List Nat) : Option GoResponse :=
  match readAID input with
  | none => none
  | some (aid, rest) =>
      if aid = 0x6d ∨ aid = 0x6c ∨ aid = 0x6e ∨ aid = 0x6b then
        some { aid := aid }
      else
        let cols := (effectiveDims dev).2
        match readPosition cols rest with
        | none => none
        | some (row, col, _, rest2) =>
            match readFields cols cp fm rest2 with
            | none => none
            | some values => some { aid := aid, row := row, col := col, values := values }

/-- An inbound modified-field group: two raw address bytes and the field's
data bytes. -/
structure FieldGroup where
  a0 : Nat
  a1 : Nat
  data : List Nat
deriving DecidableEq, Repr

/-- Byte stream of a list of groups: each group is SBA (0x11), its address
bytes, then its data. -/
def groupsBytes : List FieldGroup → List Nat
  | [] => []
  | g :: gs => 0x11 :: g.a0 :: g.a1 :: (g.data ++ groupsBytes gs)

/-- Specification-side values map, from the spec's words: each group's
address is decoded, looked up in the fieldmap; hits store the decoded data
under the fieldmap name, misses are silently discarded. -/
def specValues (cp : CP) (fm : List (Int × String)) :
    List FieldGroup → List (String × List Nat) → List (String × List Nat)
  | [], acc => acc
  | g :: gs, acc =>
      let addr := decodeBufAddr g.a0 g.a1
      match mapLookup (addr : Int) fm with
      | none => specValues cp fm gs acc
      | some name => specValues cp fm gs (valuesInsert name (cpDecode cp g.data) acc)

/-! ## Device probe (`makeDeviceInfo`, `getUsableArea` in the telnet source
file) -/

/-- `deviceInfo`: the concrete `DevInfo` value. The codepage is identified
by a selector tag; `none` means the client codepage is unknown and the
process default applies. -/
inductive CPSelect where
  | bracket
  | cp037
  | cp924
  | cp1047
  | cp1140
deriving DecidableEq, Repr

structure GoDeviceInfo where
  rows : Nat
  cols : Nat
  termtype : String
  codepage : Option CPSelect
deriving DecidableEq, Repr

def isAsciiDigit (c : Char) : Bool := '0' ≤ c && c ≤ '9'

/-- The dimension seeding at the top of `makeDeviceInfo`: match the
terminal type against `^IBM-\d{4}-([2-5])` and seed the known sizes of
models 2 through 5; a non-matching type other than `IBM-DYNAMIC` falls
back to 24×80 and is renamed `unknown (...)`; `IBM-DYNAMIC` leaves the
dimensions at 0 until the Query reply fills them in. Returns
(rows, cols, termtype after the possible rename). -/
def seedDims (termtype : String) : Nat × Nat × String :=
  match termtype.data with
  | 'I' :: 'B' :: 'M' :: '-' :: d1 :: d2 :: d3 :: d4 :: '-' :: m :: _ =>
      if isAsciiDigit d1 && isAsciiDigit d2 && isAsciiDigit d3 && isAsciiDigit d4 then
        if m = '2' then (24, 80, termtype)
        else if m = '3' then (32, 80, termtype)
        else if m = '4' then (43, 80, termtype)
        else if m = '5' then (27, 132, termtype)
        else if termtype = "IBM-DYNAMIC" then (0, 0, termtype)
        else (24, 80, "unknown (" ++ termtype ++ ")")
      else if termtype = "IBM-DYNAMIC" then (0, 0, termtype)
      else (24, 80, "unknown (" ++ termtype ++ ")")
  | _ =>
      if termtype = "IBM-DYNAMIC" then (0, 0, termtype)
      else (24, 80, "unknown (" ++ termtype ++ ")")

/-- The early return of `makeDeviceInfo` when the read of the Query reply
AID byte times out: `return &deviceInfo{24, 80, termtype, nil}, nil` —
the literal dimensions 24 and 80, the (possibly renamed) terminal type,
and no codepage. -/
def makeDeviceInfoTimeout (termtype : String) : GoDeviceInfo :=
  let seeded := seedDims termtype
  { rows := 24, cols := 80, termtype := seeded.2.2, codepage := none }

/-- The `switch cpid` at the end of `makeDeviceInfo`: 37 resolves to the
"bracket" codepage for x3270-family clients and CP 37 otherwise; 924, 1047
and 1140 resolve to their codepages; everything else leaves the codepage
nil. -/
def resolveCodepage (cpid : Nat) (isx3270 : Bool) : Option CPSelect :=
  if cpid = 37 then some (if isx3270 then .bracket else .cp037)
  else if cpid = 924 then some .cp924
  else if cpid = 1047 then some .cp1047
  else if cpid = 1140 then some .cp1140
  else none

/-- The keys of `codepageToFunction` (ebcdic.go): every code-page selector
the library provides a `Codepage` implementation for. -/
def supportedSelectors : List Nat :=
  [37, 273, 275, 277, 278, 280, 284, 285, 297, 424, 500, 803, 870, 871,
   875, 880, 924, 1026, 1047, 1140, 1141, 1142, 1143, 1144, 1145, 1146,
   1147, 1148, 1149, 1160]

inductive UAErr where
  | telnetError
  | unknownTerminal
deriving DecidableEq, Repr

/-- The `for rows*cols >= 1<<14 { rows-- }` loop of `getUsableArea`. -/
def shrinkRows (cols : Nat) : Nat → Nat
  | 0 => 0
  | r + 1 => if 16384 ≤ (r + 1) * cols then shrinkRows cols r else r + 1

/-- `getUsableArea(buf)`: validity check, big-endian cols and rows at
offsets 4..7, zero check, then shrink rows until the screen fits 14-bit
addressing. -/
def getUsableArea (buf : List Nat) : Except UAErr (Nat × Nat) :=
  if buf.length < 18 ∨ buf.getD 0 0 ≠ 0x81 ∨ buf.getD 1 0 ≠ 0x81 then
    .error .telnetError
  else
    let cols := (buf.getD 4 0) <<< 8 + buf.getD 5 0
    let rows := (buf.getD 6 0) <<< 8 + buf.getD 7 0
    if rows = 0 ∨ cols = 0 then .error .unknownTerminal
    else .ok (shrinkRows cols rows, cols)

/-! ## Lemmas about the telnet framer -/

theorem telnetRead_nil (p : Bool) : telnetRead p [] = .closed := rfl

theorem telnetRead_cons_ne (p : Bool) {b : Nat} (l : List Nat) (h : b ≠ 255) :
    telnetRead p (b :: l) = .data b l := by
  simp [telnetRead, telnetReadAux, h]

theorem telnetRead_iac_nil (p : Bool) : telnetRead p [255] = .closed := rfl

theorem telnetRead_iac_iac (p : Bool) (l : List Nat) :
    telnetRead p (255 :: 255 :: l) = .data 255 l := by
  simp [telnetRead, telnetReadAux]

theorem telnetReadAux_subneg (p : Bool) (l : List Nat) :
    telnetReadAux p .subneg l = telnetReadAux p .normal (subnegSkipSpec l) := by
  induction l with
  | nil => rfl
  | cons x xs ih =>
    by_cases hx : x = 240
    · subst hx; simp [telnetReadAux, subnegSkipSpec]
    · simp [telnetReadAux, subnegSkipSpec, hx, ih]

theorem telnetRead_sb (p : Bool) (l : List Nat) :
    telnetRead p (255 :: 250 :: l) = telnetRead p (subnegSkipSpec l) := by
  simp [telnetRead, telnetReadAux, telnetReadAux_subneg]

theorem telnetRead_eor (l : List Nat) :
    telnetRead true (255 :: 239 :: l) = .eorSig l := by
  simp [telnetRead, telnetReadAux]

theorem telnetRead_cmd (p : Bool) {c : Nat} (l : List Nat) (h255 : c ≠ 255)
    (h250 : c ≠ 250) (heor : ¬(p = true ∧ c = 239)) :
    telnetRead p (255 :: c :: l) = telnetRead p l := by
  simp [telnetRead, telnetReadAux, h255, h250, heor]

theorem telnetReadAll_eq_data {p : Bool} {input : List Nat} {b : Nat}
    {rest : List Nat} (h : telnetRead p input = .data b rest) :
    telnetReadAll p input = b :: telnetReadAll p rest := by
  conv_lhs => unfold telnetReadAll
  split <;> simp_all

theorem telnetReadAll_eq_eor {p : Bool} {input rest : List Nat}
    (h : telnetRead p input = .eorSig rest) :
    telnetReadAll p input = telnetReadAll p rest := by
  conv_lhs => unfold telnetReadAll
  split <;> simp_all

theorem telnetReadAll_eq_closed {p : Bool} {input : List Nat}
    (h : telnetRead p input = .closed) :
    telnetReadAll p input = [] := by
  conv_lhs => unfold telnetReadAll
  split <;> simp_all

theorem telnetReadAll_congr {p : Bool} {X Y : List Nat}
    (h : telnetRead p X = telnetRead p Y) :
    telnetReadAll p X = telnetReadAll p Y := by
  cases hy : telnetRead p Y with
  | data b r => rw [telnetReadAll_eq_data (h.trans hy), telnetReadAll_eq_data hy]
  | eorSig r => rw [telnetReadAll_eq_eor (h.trans hy), telnetReadAll_eq_eor hy]
  | closed => rw [telnetReadAll_eq_closed (h.trans hy), telnetReadAll_eq_closed hy]

/-- Repeated `telnetRead` calls yield exactly the input with IAC command
sequences and SB…SE runs removed and IAC IAC collapsed, proved for inputs
of bounded length. -/
theorem telnetReadAll_strip_bounded (p : Bool) :
    ∀ n (X : List Nat), X.length ≤ n → telnetReadAll p X = stripTelnetSpec X := by
  intro n
  induction n with
  | zero =>
    intro X hX
    have : X = [] := List.length_eq_zero.mp (Nat.le_zero.mp hX)
    subst this
    rw [telnetReadAll_eq_closed (telnetRead_nil p)]
    simp [stripTelnetSpec]
  | succ n ih =>
    intro X hX
    match X with
    | [] =>
      rw [telnetReadAll_eq_closed (telnetRead_nil p)]
      simp [stripTelnetSpec]
    | [b] =>
      by_cases hb : b = 255
      · subst hb
        rw [telnetReadAll_eq_closed (telnetRead_iac_nil p)]
        simp [stripTelnetSpec]
      · rw [telnetReadAll_eq_data (telnetRead_cons_ne p [] hb),
          telnetReadAll_eq_closed (telnetRead_nil p)]
        simp [stripTelnetSpec, hb]
    | b :: c :: rest =>
      simp only [List.length_cons] at hX
      have hrest : rest.length ≤ n := by omega
      by_cases hb : b = 255
      · subst hb
        by_cases hc : c = 255
        · subst hc
          rw [telnetReadAll_eq_data (telnetRead_iac_iac p rest), ih rest hrest]
          simp [stripTelnetSpec]
        · by_cases hc2 : c = 250
          · subst hc2
            rw [telnetReadAll_congr (telnetRead_sb p rest),
              ih (subnegSkipSpec rest)
                (Nat.le_trans (subnegSkipSpec_length_le rest) hrest)]
            simp [stripTelnetSpec]
          · by_cases hc3 : p = true ∧ c = 239
            · obtain ⟨hp, hc3⟩ := hc3
              subst hp; subst hc3
              rw [telnetReadAll_eq_eor (telnetRead_eor rest), ih rest hrest]
              simp [stripTelnetSpec]
            · rw [telnetReadAll_congr (telnetRead_cmd p rest hc hc2 hc3),
                ih rest hrest]
              simp [stripTelnetSpec, hc, hc2]
      · rw [telnetReadAll_eq_data (telnetRead_cons_ne p (c :: rest) hb),
          ih (c :: rest) (by simpa using Nat.le_of_succ_le_succ hX)]
        simp [stripTelnetSpec, hb]

/-- C1. For every input byte stream `X` and either `passEOR` mode, the data
bytes yielded by repeated calls to the telnet framer read function
`telnetRead` are exactly the bytes of `X` with all IAC command sequences
and SB…SE subnegotiation runs removed, and with every IAC IAC pair
collapsed to a single literal 0xFF byte. -/
theorem telnetRead_yields_stripped_stream (p : Bool) (X : List Nat) :
    telnetReadAll p X = stripTelnetSpec X :=
  telnetReadAll_strip_bounded p X.length X le_rfl

/-! ## Lemmas about the addressing codec -/

theorem and_mask_shift (a m k : Nat) :
    (a &&& (m <<< k)) >>> k = (a >>> k) &&& m := by
  apply Nat.eq_of_testBit_eq
  intro j
  simp [Nat.testBit_and, Nat.testBit_shiftRight, Nat.testBit_shiftLeft,
    Nat.le_add_right, Nat.add_sub_cancel_left]

theorem and_63_eq_mod (a : Nat) : a &&& 63 = a % 64 := by
  have h := Nat.and_pow_two_sub_one_eq_mod a 6
  norm_num at h
  exact h

theorem and_255_eq_mod (a : Nat) : a &&& 255 = a % 256 := by
  have h := Nat.and_pow_two_sub_one_eq_mod a 8
  norm_num at h
  exact h

theorem shiftRight_6 (a : Nat) : a >>> 6 = a / 64 := by
  have h := Nat.shiftRight_eq_div_pow a 6
  norm_num at h
  exact h

theorem shiftRight_8 (a : Nat) : a >>> 8 = a / 256 := by
  have h := Nat.shiftRight_eq_div_pow a 8
  norm_num at h
  exact h

theorem shiftLeft_6 (a : Nat) : a <<< 6 = a * 64 := by
  rw [Nat.shiftLeft_eq]

theorem shiftLeft_8 (a : Nat) : a <<< 8 = a * 256 := by
  rw [Nat.shiftLeft_eq]

theorem codes_facts : ∀ i < 64, codes.getD i 0 ≠ 255 ∧
    codes.getD i 0 &&& 192 ≠ 0 ∧ codes.getD i 0 &&& 63 = i := by decide

theorem and192_of_lt64 : ∀ a < 64, a &&& 192 = 0 := by decide

set_option maxRecDepth 2048 in
theorem lt64_of_and192 : ∀ b < 256, b &&& 192 = 0 → b < 64 := by decide

theorem hi12_eq (a : Nat) : (a &&& 0xfc0) >>> 6 = (a / 64) % 64 := by
  have h : (0xfc0 : Nat) = 63 <<< 6 := by norm_num [Nat.shiftLeft_eq]
  rw [h, and_mask_shift, shiftRight_6, and_63_eq_mod]

theorem hi14_eq (a : Nat) : (a &&& 0x3f00) >>> 8 = (a / 256) % 64 := by
  have h : (0x3f00 : Nat) = 63 <<< 8 := by norm_num [Nat.shiftLeft_eq]
  rw [h, and_mask_shift, shiftRight_8, and_63_eq_mod]

theorem getpos_eq_12 (row col cols : Nat) (h : row * cols + col < 4096) :
    getpos row col cols =
      [codes.getD ((row * cols + col) / 64) 0,
       codes.getD ((row * cols + col) % 64) 0] := by
  have hdiv : (row * cols + col) / 64 % 64 = (row * cols + col) / 64 :=
    Nat.mod_eq_of_lt (by omega)
  simp only [getpos, if_pos h, hi12_eq, and_63_eq_mod, hdiv]

theorem getpos_eq_14 (row col cols : Nat) (h1 : ¬ row * cols + col < 4096)
    (h2 : row * cols + col < 16384) :
    getpos row col cols =
      if (row * cols + col) % 256 = 255 then
        [(row * cols + col) / 256, 255, (row * cols + col) % 256]
      else [(row * cols + col) / 256, (row * cols + col) % 256] := by
  have hdiv : (row * cols + col) / 256 % 64 = (row * cols + col) / 256 :=
    Nat.mod_eq_of_lt (by omega)
  simp only [getpos, if_neg h1, hi14_eq, and_255_eq_mod, hdiv]

theorem telnetReadAll_pair {x y : Nat} (p : Bool) (hx : x ≠ 255)
    (hy : y ≠ 255) : telnetReadAll p [x, y] = [x, y] := by
  rw [telnetReadAll_eq_data (telnetRead_cons_ne p [y] hx),
    telnetReadAll_eq_data (telnetRead_cons_ne p [] hy),
    telnetReadAll_eq_closed (telnetRead_nil p)]

/-- C2. Decoding the encoder's output (after the telnet layer collapses the
inline IAC IAC escape of a 14-bit low byte 0xFF) recovers the buffer
address, for every `row`, `col`, `cols` with `row*cols + col < 2^14`; and
concretely `getpos(100, 120, 130)` is `{0x33, 0x40}`, which decodes to
address 13120, i.e. row 100 and column 120 at `cols = 130`. -/
theorem getpos_decodeBufAddr_roundtrip (row col cols : Nat)
    (h : row * cols + col < 16384) :
    (∃ b0 b1, telnetReadAll false (getpos row col cols) = [b0, b1] ∧
      decodeBufAddr b0 b1 = row * cols + col) ∧
    getpos 100 120 130 = [0x33, 0x40] ∧
    decodeBufAddr 0x33 0x40 = 100 * 130 + 120 ∧
    decodeBufAddr 0x33 0x40 % 130 = 120 ∧
    (decodeBufAddr 0x33 0x40 - decodeBufAddr 0x33 0x40 % 130) / 130 = 100 := by
  refine ⟨?_, by decide, by decide, by decide, by decide⟩
  set a := row * cols + col with ha
  by_cases h12 : a < 4096
  · have hdl : a / 64 < 64 := by omega
    have hml : a % 64 < 64 := Nat.mod_lt _ (by omega)
    obtain ⟨hne0, hand0, heq0⟩ := codes_facts (a / 64) hdl
    obtain ⟨hne1, _, heq1⟩ := codes_facts (a % 64) hml
    refine ⟨codes.getD (a / 64) 0, codes.getD (a % 64) 0, ?_, ?_⟩
    · rw [getpos_eq_12 row col cols h12]
      exact telnetReadAll_pair false hne0 hne1
    · unfold decodeBufAddr
      rw [if_neg hand0, heq0, heq1, shiftLeft_6]
      omega
  · have hdl : a / 256 < 64 := by omega
    have hne : a / 256 ≠ 255 := by omega
    have hand : a / 256 &&& 192 = 0 := and192_of_lt64 _ hdl
    rw [getpos_eq_14 row col cols h12 h]
    by_cases hlo : a % 256 = 255
    · refine ⟨a / 256, 255, ?_, ?_⟩
      · rw [if_pos hlo, hlo]
        rw [telnetReadAll_eq_data (telnetRead_cons_ne false [255, 255] hne),
          telnetReadAll_eq_data (telnetRead_iac_iac false []),
          telnetReadAll_eq_closed (telnetRead_nil false)]
      · unfold decodeBufAddr
        rw [if_pos hand, shiftLeft_8]
        omega
    · refine ⟨a / 256, a % 256, ?_, ?_⟩
      · rw [if_neg hlo]
        exact telnetReadAll_pair false hne hlo
      · unfold decodeBufAddr
        rw [if_pos hand, shiftLeft_8]
        omega

/-- Witness for C2 at row 100, col 120, cols 130 (address 13120, 14-bit). -/
theorem getpos_decodeBufAddr_roundtrip_witness :
    getpos 100 120 130 = [0x33, 0x40] ∧
    decodeBufAddr 0x33 0x40 = 100 * 130 + 120 :=
  ⟨(getpos_decodeBufAddr_roundtrip 100 120 130 (by decide)).2.1,
   (getpos_decodeBufAddr_roundtrip 100 120 130 (by decide)).2.2.1⟩

/-- C10. `decodeBufAddr` is total on byte pairs and always yields an address
below 2^14: the 14-bit branch requires the top two bits of the first byte
clear, the 12-bit branch masks both bytes to 6 bits. -/
theorem decodeBufAddr_total_lt (b0 b1 : Nat) (h0 : b0 < 256) (h1 : b1 < 256) :
    decodeBufAddr b0 b1 < 16384 := by
  unfold decodeBufAddr
  split
  · have hb : b0 < 64 := lt64_of_and192 b0 h0 (by assumption)
    rw [shiftLeft_8]
    omega
  · have ha : b0 &&& 63 < 64 := by rw [and_63_eq_mod]; exact Nat.mod_lt _ (by omega)
    have hb : b1 &&& 63 < 64 := by rw [and_63_eq_mod]; exact Nat.mod_lt _ (by omega)
    rw [shiftLeft_6]
    omega

/-- Witness for C10 at the byte pair (0x4E, 0xD7). -/
theorem decodeBufAddr_total_lt_witness :
    (0x4E : Nat) < 256 ∧ (0xD7 : Nat) < 256 ∧ decodeBufAddr 0x4E 0xD7 < 16384 :=
  ⟨by decide, by decide, decodeBufAddr_total_lt 0x4E 0xD7 (by decide) (by decide)⟩

/-! ## Lemmas about the screen-writer fieldmap -/

theorem mapLookup_insert_isSome (a k : Int) (v : String)
    (fm : List (Int × String)) :
    (mapLookup a (mapInsert k v fm)).isSome ↔
      a = k ∨ (mapLookup a fm).isSome := by
  induction fm with
  | nil =>
    by_cases h : k = a
    · simp [mapInsert, mapLookup, h]
    · have h2 : ¬a = k := fun hh => h hh.symm
      simp [mapInsert, mapLookup, h, h2]
  | cons p rest ih =>
    obtain ⟨k2, v2⟩ := p
    by_cases hk : k2 = k
    · subst hk
      by_cases ha : k2 = a
      · subst ha
        simp [mapInsert, mapLookup]
      · have ha2 : ¬a = k2 := fun hh => ha hh.symm
        simp [mapInsert, mapLookup, ha, ha2]
    · by_cases ha : k2 = a
      · subst ha
        simp [mapInsert, mapLookup, hk]
      · simp [mapInsert, mapLookup, hk, ha, ih]

theorem foldl_fmStep_lookup (rows cols : Int) (a : Int) :
    ∀ (screen : List GoField) (acc : List (Int × String)),
    (mapLookup a (screen.foldl (fmStep rows cols) acc)).isSome ↔
      (mapLookup a acc).isSome ∨
        ∃ f ∈ screen, f.write = true ∧
          ¬(f.row < 0 ∨ f.row > rows - 1 ∨ f.col < 0 ∨ f.col > cols - 1) ∧
          a = f.row * cols + f.col + 1 := by
  intro screen
  induction screen with
  | nil => intro acc; simp
  | cons f fs ih =>
    intro acc
    rw [List.foldl_cons, ih]
    simp only [List.mem_cons]
    constructor
    · rintro (hacc | ⟨g, hg, hrest⟩)
      · unfold fmStep at hacc
        split_ifs at hacc with h1 h2
        · exact Or.inl hacc
        · rcases (mapLookup_insert_isSome a _ _ acc).mp hacc with heq | hacc2
          · exact Or.inr ⟨f, Or.inl rfl, h2, h1, heq⟩
          · exact Or.inl hacc2
        · exact Or.inl hacc
      · exact Or.inr ⟨g, Or.inr hg, hrest⟩
    · rintro (hacc | ⟨g, hg | hg, hw, hb, heq⟩)
      · left
        unfold fmStep
        split_ifs with h1 h2
        · exact hacc
        · exact (mapLookup_insert_isSome a _ _ acc).mpr (Or.inr hacc)
        · exact hacc
      · subst hg
        left
        unfold fmStep
        rw [if_neg hb, if_pos hw]
        exact (mapLookup_insert_isSome a _ _ acc).mpr (Or.inl heq)
      · exact Or.inr ⟨g, hg, hw, hb, heq⟩

theorem foldl_fmStep_no_write (rows cols : Int) :
    ∀ (screen : List GoField) (acc : List (Int × String)),
    (∀ f ∈ screen, f.write = false) →
    screen.foldl (fmStep rows cols) acc = acc := by
  intro screen
  induction screen with
  | nil => intro acc _; rfl
  | cons f fs ih =>
    intro acc h
    rw [List.foldl_cons]
    have hf : f.write = false := h f (List.mem_cons_self f fs)
    have hstep : fmStep rows cols acc f = acc := by
      unfold fmStep
      split_ifs with h1 h2
      · rfl
      · rw [hf] at h2; cases h2
      · rfl
    rw [hstep]
    exact ih acc (fun g hg => h g (List.mem_cons_of_mem f hg))

/-- C4. Writing a screen with no writable fields yields an empty fieldmap;
when every writable field lies within the effective screen dimensions (the
data-model invariant on screens), the fieldmap's key set is exactly
`{row*cols + col + 1}` over the writable fields. -/
theorem showScreenFieldmap_keys (screen : List GoField)
    (dev : Option (Nat × Nat))
    (h : ∀ f ∈ screen, f.write = true →
      0 ≤ f.row ∧ f.row ≤ ((effectiveDims dev).1 : Int) - 1 ∧
      0 ≤ f.col ∧ f.col ≤ ((effectiveDims dev).2 : Int) - 1) :
    ((∀ f ∈ screen, f.write = false) → showScreenFieldmap screen dev = []) ∧
    (∀ a : Int, (mapLookup a (showScreenFieldmap screen dev)).isSome ↔
      ∃ f ∈ screen, f.write = true ∧
        a = f.row * ((effectiveDims dev).2 : Int) + f.col + 1) := by
  constructor
  · intro hnw
    exact foldl_fmStep_no_write _ _ screen [] hnw
  · intro a
    unfold showScreenFieldmap
    rw [foldl_fmStep_lookup _ _ a screen []]
    simp only [mapLookup, Option.isSome_none, Bool.false_eq_true, false_or]
    constructor
    · rintro ⟨f, hf, hw, _, heq⟩
      exact ⟨f, hf, hw, heq⟩
    · rintro ⟨f, hf, hw, heq⟩
      obtain ⟨h1, h2, h3, h4⟩ := h f hf hw
      exact ⟨f, hf, hw, by omega, heq⟩

/-- Witness for C4: a screen with one writable field at (0, 1) named "f"
and one protected field; the fieldmap has the key 0*80 + 1 + 1 = 2. -/
theorem showScreenFieldmap_keys_witness :
    (mapLookup 2 (showScreenFieldmap
      [⟨0, 1, "", true, false, false, false, false, 0, 0, "f", false⟩,
       ⟨3, 4, "t", false, false, false, false, false, 0, 0, "", false⟩]
      none)).isSome := by
  have h := showScreenFieldmap_keys
    [⟨0, 1, "", true, false, false, false, false, 0, 0, "f", false⟩,
     ⟨3, 4, "t", false, false, false, false, false, 0, 0, "", false⟩]
    none (by decide)
  exact (h.2 2).mpr
    ⟨⟨0, 1, "", true, false, false, false, false, 0, 0, "f", false⟩,
      by simp, rfl, by decide⟩

/-! ## Device probe: timeout dimensions, codepage resolution, usable area -/

/-- C5. The device probe's timeout path returns the literal dimensions
24×80, not the dimensions seeded from the terminal-type string: for the
terminal type `IBM-3278-5` the seeding yields 27×132 (per the model
number), yet the timeout result carries 24×80. The null code page is
returned as claimed. -/
theorem makeDeviceInfoTimeout_ignores_seed :
    seedDims "IBM-3278-5" = (27, 132, "IBM-3278-5") ∧
    makeDeviceInfoTimeout "IBM-3278-5" =
      { rows := 24, cols := 80, termtype := "IBM-3278-5", codepage := none } ∧
    ((makeDeviceInfoTimeout "IBM-3278-5").rows ≠ (seedDims "IBM-3278-5").1 ∨
      (makeDeviceInfoTimeout "IBM-3278-5").cols ≠ (seedDims "IBM-3278-5").2.1) ∧
    (makeDeviceInfoTimeout "IBM-3278-5").codepage = none := by decide

/-- Counterexample for C6: 273 is a supported selector (a key of
`codepageToFunction` in ebcdic.go), yet the device probe's resolution
leaves the codepage null for it. -/
theorem resolveCodepage_273_null :
    273 ∈ supportedSelectors ∧ resolveCodepage 273 false = none := by decide

/-- C6 (amended). The probe resolves the discovered code-page ID to the
"bracket" codepage for ID 37 on x3270-family clients, to CP 37 otherwise,
and to the numbered codepage only for IDs 924, 1047 and 1140; every other
ID — including all the other supported selectors — resolves to null. -/
theorem resolveCodepage_amended :
    (∀ b, resolveCodepage 37 b = some (if b then .bracket else .cp037)) ∧
    (∀ b, resolveCodepage 924 b = some .cp924) ∧
    (∀ b, resolveCodepage 1047 b = some .cp1047) ∧
    (∀ b, resolveCodepage 1140 b = some .cp1140) ∧
    (∀ cpid b, cpid ≠ 37 → cpid ≠ 924 → cpid ≠ 1047 → cpid ≠ 1140 →
      resolveCodepage cpid b = none) := by
  refine ⟨fun b => rfl, fun b => rfl, fun b => rfl, fun b => rfl, ?_⟩
  intro cpid b h37 h924 h1047 h1140
  simp [resolveCodepage, h37, h924, h1047, h1140]

/-- Witness for C6 (amended) at the supported selector 500. -/
theorem resolveCodepage_amended_witness : resolveCodepage 500 true = none :=
  resolveCodepage_amended.2.2.2.2 500 true (by decide) (by decide) (by decide)
    (by decide)

theorem shrinkRows_le (cols : Nat) : ∀ r, shrinkRows cols r ≤ r := by
  intro r
  induction r with
  | zero => simp [shrinkRows]
  | succ n ih =>
    simp only [shrinkRows]
    split
    · omega
    · exact le_rfl

theorem shrinkRows_fits (cols : Nat) : ∀ r, shrinkRows cols r * cols < 16384 := by
  intro r
  induction r with
  | zero => simp [shrinkRows]
  | succ n ih =>
    simp only [shrinkRows]
    split
    · exact ih
    · omega

theorem shrinkRows_maximal (cols : Nat) :
    ∀ r r2, shrinkRows cols r < r2 → r2 ≤ r → 16384 ≤ r2 * cols := by
  intro r
  induction r with
  | zero => intro r2 hlt hle; omega
  | succ n ih =>
    intro r2 hlt hle
    by_cases h : 16384 ≤ (n + 1) * cols
    · rw [shrinkRows, if_pos h] at hlt
      by_cases h2 : r2 ≤ n
      · exact ih r2 hlt h2
      · have : r2 = n + 1 := by omega
        subst this
        exact h
    · rw [shrinkRows, if_neg h] at hlt
      omega

/-- C7. For every Usable Area reply buffer passing the length/header check,
`getUsableArea` fails with `ErrUnknownTerminal` exactly when the encoded
rows or cols value is zero; otherwise it returns the reply's cols together
with the largest row count not exceeding the reply's rows for which
`rows*cols < 2^14`. -/
theorem getUsableArea_spec (buf : List Nat) (hlen : ¬buf.length < 18)
    (h0 : buf.getD 0 0 = 0x81) (h1 : buf.getD 1 0 = 0x81) :
    ((getUsableArea buf = .error .unknownTerminal) ↔
      ((buf.getD 6 0) <<< 8 + buf.getD 7 0 = 0 ∨
        (buf.getD 4 0) <<< 8 + buf.getD 5 0 = 0)) ∧
    (¬((buf.getD 6 0) <<< 8 + buf.getD 7 0 = 0 ∨
        (buf.getD 4 0) <<< 8 + buf.getD 5 0 = 0) →
      ∃ r, getUsableArea buf =
          .ok (r, (buf.getD 4 0) <<< 8 + buf.getD 5 0) ∧
        r * ((buf.getD 4 0) <<< 8 + buf.getD 5 0) < 16384 ∧
        r ≤ (buf.getD 6 0) <<< 8 + buf.getD 7 0 ∧
        ∀ r2, r < r2 → r2 ≤ (buf.getD 6 0) <<< 8 + buf.getD 7 0 →
          16384 ≤ r2 * ((buf.getD 4 0) <<< 8 + buf.getD 5 0)) := by
  have hcheck : ¬(buf.length < 18 ∨ buf.getD 0 0 ≠ 0x81 ∨ buf.getD 1 0 ≠ 0x81) := by
    rintro (h | h | h)
    · exact hlen h
    · exact h h0
    · exact h h1
  constructor
  · constructor
    · intro h
      by_contra hz
      rw [getUsableArea, if_neg hcheck] at h
      simp only [if_neg hz] at h
      cases h
    · intro hz
      rw [getUsableArea, if_neg hcheck]
      simp only [if_pos hz]
  · intro hz
    refine ⟨shrinkRows ((buf.getD 4 0) <<< 8 + buf.getD 5 0)
      ((buf.getD 6 0) <<< 8 + buf.getD 7 0), ?_, ?_, ?_, ?_⟩
    · rw [getUsableArea, if_neg hcheck]
      simp only [if_neg hz]
    · exact shrinkRows_fits _ _
    · exact shrinkRows_le _ _
    · exact shrinkRows_maximal _ _

/-- Witness for C7: a Usable Area reply claiming 200 rows × 132 cols is
shrunk to 124 rows (124·132 = 16368 < 16384 ≤ 125·132). -/
theorem getUsableArea_spec_witness :
    getUsableArea ([0x81, 0x81, 1, 0, 0, 132, 0, 200] ++
      List.replicate 10 0) = .ok (124, 132) := by
  have h := getUsableArea_spec
    ([0x81, 0x81, 1, 0, 0, 132, 0, 200] ++ List.replicate 10 0)
    (by decide) (by decide) (by decide)
  obtain ⟨r, hok, hfit, hle, hmax⟩ := h.2 (by decide)
  have hr : r = 124 := by
    have h132 : (([0x81, 0x81, 1, 0, 0, 132, 0, 200] ++
        List.replicate 10 0).getD 4 0) <<< 8 +
        ([0x81, 0x81, 1, 0, 0, 132, 0, 200] ++
        List.replicate 10 0).getD 5 0 = 132 := by decide
    have h200 : (([0x81, 0x81, 1, 0, 0, 132, 0, 200] ++
        List.replicate 10 0).getD 6 0) <<< 8 +
        ([0x81, 0x81, 1, 0, 0, 132, 0, 200] ++
        List.replicate 10 0).getD 7 0 = 200 := by decide
    rw [h132] at hfit hmax
    rw [h200] at hle hmax
    by_contra hne
    rcases Nat.lt_or_ge r 124 with hlt | hge
    · have := hmax 124 hlt (by omega)
      omega
    · have : 124 < r := by omega
      omega
  have h132b : (([0x81, 0x81, 1, 0, 0, 132, 0, 200] ++
      List.replicate 10 0).getD 4 0) <<< 8 +
      ([0x81, 0x81, 1, 0, 0, 132, 0, 200] ++
      List.replicate 10 0).getD 5 0 = 132 := by decide
  rw [hr, h132b] at hok
  exact hok

/-! ## Codepage encode/decode claims -/

/-- Counterexample for C8: on malformed input — the Go UTF-8 decoder
reports `utf8.RuneError` (U+FFFD) — `Encode` breaks out of its loop and
drops the remainder instead of emitting the substitute byte. -/
theorem cpEncode_malformed_truncates :
    cpEncode cp1047 [0xFFFD, 0x41] = [] ∧
    cpEncode cp1047 [0xFFFD, 0x41] ≠ [0x3F, 0xC1] := by decide

/-- C8 (amended). `Encode` emits exactly the substitute byte for every
Unicode scalar not mapped by the codepage (a high scalar absent from the
high-codepoint map and the CP310 map, or a low scalar whose table entry is
the substitute); malformed input (U+FFFD) instead stops the encoding,
returning only the bytes produced so far. -/
theorem cpEncode_substitute_amended :
    (∀ (cp : CP) (r : Nat) (rest : List Nat), r ≠ 0xFFFD → 256 ≤ r →
      lookupNat r cp.highu2e = none → lookupNat r cp.u2ge = none →
      cpEncode cp (r :: rest) = cp.esub :: cpEncode cp rest) ∧
    (∀ (cp : CP) (r : Nat) (rest : List Nat), r < 256 → cp.u2e r = cp.esub →
      cpEncode cp (r :: rest) = cp.esub :: cpEncode cp rest) ∧
    (∀ (cp : CP) (rest : List Nat), cpEncode cp (0xFFFD :: rest) = []) := by
  refine ⟨?_, ?_, ?_⟩
  · intro cp r rest hne hge hh hu
    have hlt : ¬r < 256 := by omega
    simp [cpEncode, hne, hlt, hh, hu]
  · intro cp r rest hlt hsub
    have hne : r ≠ 0xFFFD := by omega
    simp [cpEncode, hne, hlt, hsub]
  · intro cp rest
    simp [cpEncode]

/-- Witness for C8 (amended) at U+2603, which no table of the modelled
CP1047 maps. -/
theorem cpEncode_substitute_amended_witness :
    cpEncode cp1047 [0x2603] = [0x3F] :=
  (cpEncode_substitute_amended.1 cp1047 0x2603 [] (by decide) (by decide)
    (by decide) (by decide)).trans (by decide)

theorem lookupNat_mem {k v : Nat} :
    ∀ {l : List (Nat × Nat)}, lookupNat k l = some v → (k, v) ∈ l := by
  intro l
  induction l with
  | nil => intro h; cases h
  | cons p rest ih =>
    intro h
    obtain ⟨k2, v2⟩ := p
    by_cases hk : k2 = k
    · subst hk
      rw [lookupNat, if_pos rfl] at h
      injection h with h
      subst h
      exact List.mem_cons_self _ _
    · rw [lookupNat, if_neg hk] at h
      exact List.mem_cons_of_mem _ (ih h)

set_option maxRecDepth 8192 in
theorem cp310_image_not_fffd :
    ∀ p ∈ unicodeToCP310, cp310ge2u p.2 ≠ 0xFFFD := by decide

/-- Counterexample for C9: U+22C4 is in the CP310 table (byte 0x70) and
encodes as the graphic-escape pair, but decoding that pair yields the
aliased canonical code point U+25CA, not U+22C4. -/
theorem cp310_alias_no_roundtrip :
    cpEncode cp1047 [0x22C4] = [0x08, 0x70] ∧
    cpDecode cp1047 [0x08, 0x70] = [0x25CA] ∧
    (0x25CA : Nat) ≠ 0x22C4 := by decide

/-- C9 (amended). A code point of the CP310 table that is at least 0x100
and not claimed by the codepage's own high-codepoint map encodes as the
2-byte sequence `{0x08, cp310_byte}`; decoding that sequence yields the
canonical code point of the CP310 decode table for that byte, so the
round-trip returns the original code point exactly when the entry is not
an alias of another code point. -/
theorem cp310_ge_pair_amended (r b : Nat)
    (hmem : lookupNat r unicodeToCP310 = some b) (hge : 256 ≤ r)
    (hhigh : lookupNat r cp1047.highu2e = none) :
    cpEncode cp1047 [r] = [0x08, b] ∧
    cpDecode cp1047 [0x08, b] = [cp310ge2u b] ∧
    (cpDecode cp1047 (cpEncode cp1047 [r]) = [r] ↔ cp310ge2u b = r) := by
  have hne : r ≠ 0xFFFD := by
    intro h
    subst h
    have : lookupNat 0xFFFD unicodeToCP310 = none := by decide
    rw [this] at hmem
    cases hmem
  have hlt : ¬r < 256 := by omega
  have hmem2 : lookupNat r cp1047.u2ge = some b := hmem
  have henc : cpEncode cp1047 [r] = [0x08, b] := by
    simp only [cpEncode, if_neg hne, if_neg hlt, hhigh, hmem2]
    rfl
  have hnf : cp310ge2u b ≠ 0xFFFD :=
    cp310_image_not_fffd (r, b) (lookupNat_mem hmem)
  have hdec : cpDecode cp1047 [0x08, b] = [cp310ge2u b] := by
    simp [cpDecode, cpDecodeAux, cp1047, hnf]
  refine ⟨henc, hdec, ?_⟩
  rw [henc, hdec]
  simp

/-- Witness for C9 (amended) at U+2260 (byte 0xBE), a non-aliased entry,
which round-trips. -/
theorem cp310_ge_pair_amended_witness :
    cpEncode cp1047 [0x2260] = [0x08, 0xBE] ∧
    cpDecode cp1047 (cpEncode cp1047 [0x2260]) = [0x2260] := by
  have h := cp310_ge_pair_amended 0x2260 0xBE (by decide) (by decide) (by decide)
  exact ⟨h.1, h.2.2.mpr (by decide)⟩

/-! ## Lemmas about the response reader -/

theorem aidSet_ne_255 {b : Nat} (h : aidSet b = true) : b ≠ 255 := by
  simp only [aidSet, Bool.or_eq_true, Bool.and_eq_true, decide_eq_true_eq] at h
  omega

theorem readAID_cons {aid : Nat} (rest : List Nat) (h : aidSet aid = true) :
    readAID (aid :: rest) = some (aid, rest) := by
  have h255 := aidSet_ne_255 h
  conv_lhs => unfold readAID
  split
  · next b r heq =>
    rw [telnetRead_cons_ne false rest h255] at heq
    injection heq with heq1 heq2
    subst heq1
    subst heq2
    rw [if_pos h]
  · next heq =>
    rw [telnetRead_cons_ne false rest h255] at heq
    cases heq
  · next heq =>
    rw [telnetRead_cons_ne false rest h255] at heq
    cases heq

theorem readPosition_cons {a0 a1 : Nat} (rest : List Nat) (cols : Nat)
    (h0 : a0 ≠ 255) (h1 : a1 ≠ 255) :
    readPosition cols (a0 :: a1 :: rest) =
      some ((decodeBufAddr a0 a1 - decodeBufAddr a0 a1 % cols) / cols,
            decodeBufAddr a0 a1 % cols, decodeBufAddr a0 a1, rest) := by
  simp [readPosition, readPos1, telnetRead_cons_ne false (a1 :: rest) h0,
    telnetRead_cons_ne false rest h1]

theorem readFieldsLoop_eor {cols : Nat} {cp : CP} {fm : List (Int × String)}
    {input rest : List Nat} {infield : Bool} {fp : Nat} {fv : List Nat}
    {vals : List (String × List Nat)}
    (h : telnetRead true input = .eorSig rest) :
    readFieldsLoop cols cp fm input infield fp fv vals =
      some (if infield then handleField fp (cpDecode cp fv) fm vals
            else vals) := by
  conv_lhs => unfold readFieldsLoop
  split <;> simp_all

theorem readFieldsLoop_sba {cols : Nat} {cp : CP} {fm : List (Int × String)}
    {input rest rest2 : List Nat} {infield : Bool} {fp : Nat} {fv : List Nat}
    {vals : List (String × List Nat)} {row col addr : Nat}
    (h : telnetRead true input = .data 0x11 rest)
    (h2 : readPosition cols rest = some (row, col, addr, rest2)) :
    readFieldsLoop cols cp fm input infield fp fv vals =
      readFieldsLoop cols cp fm rest2 true addr []
        (if infield then handleField fp (cpDecode cp fv) fm vals else vals) := by
  conv_lhs => unfold readFieldsLoop
  split <;> simp_all
  obtain ⟨-, hr⟩ := h
  subst hr
  split <;> simp_all

theorem readFieldsLoop_byte {cols : Nat} {cp : CP} {fm : List (Int × String)}
    {input rest : List Nat} {infield : Bool} {fp : Nat} {fv : List Nat}
    {vals : List (String × List Nat)} {b : Nat}
    (h : telnetRead true input = .data b rest) (hb : b ≠ 0x11) :
    readFieldsLoop cols cp fm input infield fp fv vals =
      readFieldsLoop cols cp fm rest infield fp
        (if infield then fv ++ [b] else fv) vals := by
  conv_lhs => unfold readFieldsLoop
  split
  · next heq => rw [h] at heq; cases heq
  · next heq => rw [h] at heq; cases heq
  · next b2 r heq =>
    rw [h] at heq
    injection heq with heq1 heq2
    subst heq1
    subst heq2
    rw [if_neg hb]
    by_cases hinf : infield = true
    · subst hinf; simp
    · have : infield = false := Bool.eq_false_iff.mpr hinf
      subst this; simp

theorem readFieldsLoop_data_run (cols : Nat) (cp : CP)
    (fm : List (Int × String)) :
    ∀ (d : List Nat), (∀ x ∈ d, x ≠ 255 ∧ x ≠ 0x11) →
    ∀ (tail : List Nat) (fp : Nat) (fv : List Nat)
      (vals : List (String × List Nat)),
    readFieldsLoop cols cp fm (d ++ tail) true fp fv vals =
      readFieldsLoop cols cp fm tail true fp (fv ++ d) vals := by
  intro d
  induction d with
  | nil => intro _ tail fp fv vals; simp
  | cons x xs ih =>
    intro hd tail fp fv vals
    obtain ⟨hx255, hx17⟩ := hd x (List.mem_cons_self x xs)
    rw [List.cons_append,
      readFieldsLoop_byte (telnetRead_cons_ne true (xs ++ tail) hx255) hx17,
      show (if (true : Bool) = true then fv ++ [x] else fv) = fv ++ [x] from rfl,
      ih (fun y hy => hd y (List.mem_cons_of_mem x hy)) tail fp (fv ++ [x]) vals]
    simp

theorem specValues_cons (cp : CP) (fm : List (Int × String)) (g : FieldGroup)
    (gs : List FieldGroup) (acc : List (String × List Nat)) :
    specValues cp fm (g :: gs) acc =
      specValues cp fm gs
        (handleField (decodeBufAddr g.a0 g.a1) (cpDecode cp g.data) fm acc) := by
  cases h : mapLookup ((decodeBufAddr g.a0 g.a1 : Nat) : Int) fm with
  | none => simp [specValues, handleField, h]
  | some name => simp [specValues, handleField, h]

theorem readFieldsLoop_groups (cols : Nat) (cp : CP)
    (fm : List (Int × String)) :
    ∀ (gs : List FieldGroup),
    (∀ g ∈ gs, g.a0 ≠ 255 ∧ g.a1 ≠ 255 ∧ ∀ x ∈ g.data, x ≠ 255 ∧ x ≠ 0x11) →
    ∀ (infield : Bool) (fp : Nat) (fv : List Nat)
      (vals : List (String × List Nat)),
    readFieldsLoop cols cp fm (groupsBytes gs ++ [255, 239]) infield fp fv vals =
      some (specValues cp fm gs
        (if infield then handleField fp (cpDecode cp fv) fm vals else vals)) := by
  intro gs
  induction gs with
  | nil =>
    intro _ infield fp fv vals
    have hin : groupsBytes [] ++ [255, 239] = 255 :: 239 :: ([] : List Nat) := rfl
    rw [hin, readFieldsLoop_eor (telnetRead_eor [])]
    rfl
  | cons g gs2 ih =>
    intro hgs infield fp fv vals
    obtain ⟨h0, h1, hdat⟩ := hgs g (List.mem_cons_self g gs2)
    have hinput : groupsBytes (g :: gs2) ++ [255, 239] =
        0x11 :: g.a0 :: g.a1 :: (g.data ++ (groupsBytes gs2 ++ [255, 239])) := by
      simp [groupsBytes]
    rw [hinput,
      readFieldsLoop_sba
        (telnetRead_cons_ne true
          (g.a0 :: g.a1 :: (g.data ++ (groupsBytes gs2 ++ [255, 239])))
          (by decide))
        (readPosition_cons (g.data ++ (groupsBytes gs2 ++ [255, 239])) cols h0 h1),
      readFieldsLoop_data_run cols cp fm g.data hdat (groupsBytes gs2 ++ [255, 239])]
    simp only [List.nil_append]
    rw [ih (fun g2 hg2 => hgs g2 (List.mem_cons_of_mem g hg2)) true
      (decodeBufAddr g.a0 g.a1) g.data
      (if infield then handleField fp (cpDecode cp fv) fm vals else vals)]
    rw [specValues_cons]
    simp

/-- C3. A stream of an AID byte (not Clear or a PA key), two cursor-address
bytes, zero or more (SBA, address, data) groups and IAC EOR parses to the
Response carrying that AID, the decoded cursor row and column, and the
values map that assigns each group's decoded data (through the active
codepage) to the fieldmap name of its address, groups at addresses absent
from the fieldmap being silently discarded. Address and data bytes are
ordinary data bytes (no inline IAC escapes, no SBA byte inside data). -/
theorem readResponse_parses (dev : Option (Nat × Nat)) (cp : CP)
    (fm : List (Int × String)) (aid c0 c1 : Nat) (gs : List FieldGroup)
    (haid : aidSet aid = true)
    (hnotpa : ¬(aid = 0x6d ∨ aid = 0x6c ∨ aid = 0x6e ∨ aid = 0x6b))
    (hc0 : c0 ≠ 255) (hc1 : c1 ≠ 255)
    (hgs : ∀ g ∈ gs, g.a0 ≠ 255 ∧ g.a1 ≠ 255 ∧
      ∀ x ∈ g.data, x ≠ 255 ∧ x ≠ 0x11) :
    readResponse dev cp fm (aid :: c0 :: c1 :: (groupsBytes gs ++ [255, 239])) =
      some { aid := aid,
             row := (decodeBufAddr c0 c1 -
               decodeBufAddr c0 c1 % (effectiveDims dev).2) / (effectiveDims dev).2,
             col := decodeBufAddr c0 c1 % (effectiveDims dev).2,
             values := specValues cp fm gs [] } := by
  unfold readResponse
  rw [readAID_cons (c0 :: c1 :: (groupsBytes gs ++ [255, 239])) haid]
  simp only [if_neg hnotpa]
  rw [readPosition_cons (groupsBytes gs ++ [255, 239]) (effectiveDims dev).2 hc0 hc1]
  simp only []
  unfold readFields
  rw [readFieldsLoop_groups (effectiveDims dev).2 cp fm gs hgs false 0 [] []]
  simp

/-- Witness for C3: the spec's response-parse scenario — AID Enter, cursor
bytes {0x4E, 0xD7}, one group at address 16 with data {0xC1, 0xC2}, with
fieldmap {16 ↦ "x"} and CP1047 — yields Enter, row 11, col 39, and
values {"x" ↦ "AB"}. -/
theorem readResponse_parses_witness :
    readResponse none cp1047 [((16 : Int), "x")]
      [0x7D, 0x4E, 0xD7, 0x11, 0x40, 0x50, 0xC1, 0xC2, 0xFF, 0xEF] =
      some { aid := 0x7D, row := 11, col := 39,
             values := [("x", [0x41, 0x42])] } := by
  have h := readResponse_parses none cp1047 [((16 : Int), "x")] 0x7D 0x4E 0xD7
    [⟨0x40, 0x50, [0xC1, 0xC2]⟩] (by decide) (by decide) (by decide) (by decide)
    (by decide)
  exact h.trans (by decide)

end Go3270
